import Mathlib

/-!
Verification of the web-scrapper job-aggregation core.

This file gives a shallow embedding, in Lean 4, of the storage, search,
analytics, result-merging and rate-limiting code of the repository
(`internal/storage` in part_002, `internal/scraper/base.go`, and the rate
limiter in part_005), and proves or refutes the specification's claims
about it.

Modelling conventions:
- Go `string` is Lean `String`; `strings.ToLower` / `strings.Contains` /
  `strings.EqualFold` are modelled on the underlying `Char` lists
  (`lowerStr`, `goContains`), which agrees with Go's per-rune semantics.
- Go `int` is `ℤ`, `float64` is `ℚ` (every computation the claims touch is
  exact in the dyadic/decimal range, so rationals are a faithful model),
  `time.Duration` is `ℕ` nanoseconds (durations handled here are
  non-negative); Go integer division on non-negative operands is `Nat`
  division, and division by zero, which panics in Go, is modelled by
  `Option` (`none` = runtime panic).
- Go slice expressions `xs[lo:hi]`, which panic when the bounds are out of
  range, are modelled by `goSlice` returning an `Option`.
- `sort.Slice` / `sort.Float64s` are modelled by a deterministic insertion
  sort (`sortBy`); for the small inputs of `getTopCounts` Go's pdqsort
  behaves exactly as a stable insertion sort.
- Go map iteration order is unspecified and randomized by the runtime, so
  functions that range over a map take the iteration sequence as an
  explicit list parameter.
-/

/-- Go `strings.ToLower` (per-rune lowering). -/
def lowerStr (s : String) : String := ⟨s.data.map Char.toLower⟩

/-- `sub` occurs as a contiguous run inside `s` (helper for `goContains`). -/
def listSub : List Char → List Char → Bool
  | sub, [] => sub.isEmpty
  | sub, c :: t => sub.isPrefixOf (c :: t) || listSub sub t

/-- Go `strings.Contains s sub`. -/
def goContains (s sub : String) : Bool := listSub sub.data s.data

/-- `models.Job` (internal/models/job.go), restricted to the fields the
storage, search and analytics code reads; `PostedDate` is an integer
timestamp, `SalaryMin`/`SalaryMax` use Go's zero value `0` for "absent". -/
structure Job where
  id : String
  title : String
  company : String
  location : String
  description : String
  skills : List String
  salaryMin : ℤ
  salaryMax : ℤ
  degreeRequired : Bool
  experienceLevel : String
  remoteOption : String
  postedDate : ℤ
  url : String
  source : String
  industry : String
deriving DecidableEq

/-- `models.SearchFilters` (internal/models/job.go), restricted to the
fields `matchesFilters` and the pagination code read. -/
structure SearchFilters where
  jobTitle : String
  keywords : List String
  location : String
  locations : List String
  remoteOnly : Bool
  minSalary : ℤ
  maxSalary : ℤ
  experienceLevel : String
  degreeRequired : Option Bool
  skills : List String
  limit : ℤ
  offset : ℤ
deriving DecidableEq

/-- `models.SalaryRange`. -/
structure SalaryRange where
  min : ℤ
  max : ℤ
  median : ℚ
  p25 : ℚ
  p75 : ℚ
deriving DecidableEq

/-- `models.SkillCount` (also standing in for `models.CompanyCount`,
which is identical up to field names). -/
structure SkillCount where
  skill : String
  count : ℕ
deriving DecidableEq

/-- `models.ScrapingResult`: one agent's outcome. The `error` field is
`none` exactly when the Go `Error` field is `nil`. -/
structure ScrapingResult where
  jobs : List Job
  source : String
  error : Option String
deriving DecidableEq

/-- A job with every field at its Go zero value (used for concrete tests). -/
def emptyJob : Job :=
  { id := "", title := "", company := "", location := "", description := ""
    skills := [], salaryMin := 0, salaryMax := 0, degreeRequired := false
    experienceLevel := "", remoteOption := "", postedDate := 0, url := ""
    source := "", industry := "" }

/-- Filters with every field at its Go zero value: no constraint at all. -/
def emptyFilters : SearchFilters :=
  { jobTitle := "", keywords := [], location := "", locations := []
    remoteOnly := false, minSalary := 0, maxSalary := 0
    experienceLevel := "", degreeRequired := none, skills := []
    limit := 0, offset := 0 }

/-- `InMemoryStorage.Store` (part_002 lines 33-51): walk the incoming batch
in order, appending a job only when its URL is not among the URLs already
held (the Go code keeps the `existingURLs` set, which at each step holds
exactly the URLs of the accumulated list). The second component is the
returned `error`, always `nil`. -/
def Store (stored newJobs : List Job) : List Job × Option String :=
  (newJobs.foldl
    (fun acc job => if job.url ∈ acc.map Job.url then acc else acc ++ [job])
    stored, none)

/-- The jobs surviving URL-deduplication against `seen` (proof companion of
`Store`; keeps the first occurrence of each new URL). -/
def dedupNew (seen : List String) : List Job → List Job
  | [] => []
  | j :: t =>
    if j.url ∈ seen then dedupNew seen t
    else j :: dedupNew (seen ++ [j.url]) t

/-- Insert into a sorted list, keeping `x` before the first `y` it may
precede (helper for `sortBy`). -/
def insertSorted (le : α → α → Bool) (x : α) : List α → List α
  | [] => [x]
  | y :: t => if le x y then x :: y :: t else y :: insertSorted le x t

/-- Stable insertion sort: for elements `x` before `y` in the input with
`le x y` true, `x` stays before `y`. Models `sort.Slice`/`sort.Float64s`
(see the header notes). -/
def sortBy (le : α → α → Bool) (l : List α) : List α :=
  l.foldr (insertSorted le) []

/-- The sort step of `InMemoryStorage.Search` (part_002 lines 66-69):
newest `PostedDate` first. -/
def sortJobsByDate (jobs : List Job) : List Job :=
  sortBy (fun a b => decide (b.postedDate ≤ a.postedDate)) jobs

/-- Go slice expression `xs[lo:hi]`: defined only for
`0 ≤ lo ≤ hi ≤ len xs`, otherwise a runtime panic (`none`). -/
def goSlice (xs : List α) (lo hi : ℤ) : Option (List α) :=
  if 0 ≤ lo ∧ lo ≤ hi ∧ hi ≤ (xs.length : ℤ) then
    some ((xs.drop lo.toNat).take (hi - lo).toNat)
  else none

/-- Job-title clause of `matchesFilters` (part_002 lines 107-112). -/
def titleFilterOk (job : Job) (filters : SearchFilters) : Bool :=
  decide (filters.jobTitle = "") ||
    goContains (lowerStr job.title) (lowerStr filters.jobTitle)

/-- The searchable text of a job: title, description and joined skills
(part_002 line 116). -/
def jobText (job : Job) : String :=
  lowerStr (job.title ++ " " ++ job.description ++ " " ++
    String.intercalate " " job.skills)

/-- Keywords clause of `matchesFilters` (part_002 lines 114-127): vacuously
true when no keywords are given, otherwise ANY keyword must occur in the
job text. -/
def keywordsFilterOk (job : Job) (filters : SearchFilters) : Bool :=
  filters.keywords.isEmpty ||
    filters.keywords.any (fun keyword => goContains (jobText job) (lowerStr keyword))

/-- Single-location clause of `matchesFilters` (part_002 lines 129-134). -/
def locationFilterOk (job : Job) (filters : SearchFilters) : Bool :=
  decide (filters.location = "") ||
    goContains (lowerStr job.location) (lowerStr filters.location)

/-- Multi-location clause of `matchesFilters` (part_002 lines 136-148). -/
def locationsFilterOk (job : Job) (filters : SearchFilters) : Bool :=
  filters.locations.isEmpty ||
    filters.locations.any (fun l => goContains (lowerStr job.location) (lowerStr l))

/-- Remote clause of `matchesFilters` (part_002 lines 150-153). -/
def remoteFilterOk (job : Job) (filters : SearchFilters) : Bool :=
  !filters.remoteOnly || goContains (lowerStr job.remoteOption) "remote"

/-- Salary clauses of `matchesFilters` (part_002 lines 155-161): with a
positive `MinSalary`, a job whose `SalaryMin` is zero (absent) or below the
bound is rejected; symmetrically for `MaxSalary`. -/
def salaryFilterOk (job : Job) (filters : SearchFilters) : Bool :=
  !(decide (0 < filters.minSalary) &&
      (decide (job.salaryMin = 0) || decide (job.salaryMin < filters.minSalary))) &&
  !(decide (0 < filters.maxSalary) &&
      (decide (job.salaryMax = 0) || decide (filters.maxSalary < job.salaryMax)))

/-- Experience clause of `matchesFilters` (part_002 lines 163-168),
`strings.EqualFold` modelled as equality after lowering. -/
def experienceFilterOk (job : Job) (filters : SearchFilters) : Bool :=
  decide (filters.experienceLevel = "") ||
    decide (lowerStr job.experienceLevel = lowerStr filters.experienceLevel)

/-- Degree clause of `matchesFilters` (part_002 lines 170-175). -/
def degreeFilterOk (job : Job) (filters : SearchFilters) : Bool :=
  match filters.degreeRequired with
  | none => true
  | some v => job.degreeRequired == v

/-- Skills clause of `matchesFilters` (part_002 lines 177-189): every
requested skill must be among the job's skills, compared lowercased. -/
def skillsFilterOk (job : Job) (filters : SearchFilters) : Bool :=
  filters.skills.all
    (fun requiredSkill => decide (lowerStr requiredSkill ∈ job.skills.map lowerStr))

/-- `InMemoryStorage.matchesFilters` (part_002 lines 106-192): the
conjunction of all per-field clauses, in source order. -/
def matchesFilters (job : Job) (filters : SearchFilters) : Bool :=
  titleFilterOk job filters && keywordsFilterOk job filters &&
  locationFilterOk job filters && locationsFilterOk job filters &&
  remoteFilterOk job filters && salaryFilterOk job filters &&
  experienceFilterOk job filters && degreeFilterOk job filters &&
  skillsFilterOk job filters

/-- The filter / sort / pagination portion of `InMemoryStorage.Search`
(part_002 lines 54-95): returns the page and the pre-pagination total, or
`none` when the slice expression panics. The analytics portion is modelled
separately (`GetAnalyticsSalaryRange`, `getTopCounts`). -/
def Search (jobs : List Job) (filters : SearchFilters) : Option (List Job × ℕ) :=
  let filteredJobs := sortJobsByDate (jobs.filter (fun j => matchesFilters j filters))
  let total := filteredJobs.length
  let start := filters.offset
  let stop0 := start + filters.limit
  let stop1 := if filters.limit = 0 then (total : ℤ) else stop0
  let start1 := if (total : ℤ) < start then (total : ℤ) else start
  let stop2 := if (total : ℤ) < stop1 then (total : ℤ) else stop1
  (goSlice filteredJobs start1 stop2).map (fun page => (page, total))

/-- Go conversion `int(x)` on a `float64`: truncation toward zero. -/
def goTrunc (q : ℚ) : ℤ := if q < 0 then -⌊-q⌋ else ⌊q⌋

/-- `percentile` (part_002 lines 291-310), on exact rationals. -/
def percentile (sortedData : List ℚ) (p : ℚ) : ℚ :=
  let n := sortedData.length
  if n = 0 then 0
  else if n = 1 then sortedData.getD 0 0
  else
    let index : ℚ := p / 100 * ((n : ℚ) - 1)
    let lower : ℤ := goTrunc index
    let upper : ℤ := lower + 1
    if (n : ℤ) ≤ upper then sortedData.getD (n - 1) 0
    else
      let weight : ℚ := index - (lower : ℚ)
      sortedData.getD lower.toNat 0 * (1 - weight) +
        sortedData.getD upper.toNat 0 * weight

/-- The representative salary of one job (part_002 lines 251-259): mean of
the two bounds when both are positive, else whichever is positive, else no
contribution to the sample. -/
def representativeSalary (job : Job) : Option ℚ :=
  if 0 < job.salaryMin ∧ 0 < job.salaryMax then
    some (((job.salaryMin : ℚ) + (job.salaryMax : ℚ)) / 2)
  else if 0 < job.salaryMin then some (job.salaryMin : ℚ)
  else if 0 < job.salaryMax then some (job.salaryMax : ℚ)
  else none

/-- The ascending-sorted representative-salary sample (`sort.Float64s`,
part_002 lines 211-264). -/
def sortedSalaries (jobs : List Job) : List ℚ :=
  sortBy (fun a b => decide (a ≤ b)) (jobs.filterMap representativeSalary)

/-- The salary-statistics portion of `InMemoryStorage.GetAnalytics`
(part_002 lines 194-279): the zero-valued range when there are no jobs or
the salary sample is empty, otherwise min/max/median/p25/p75 of the sorted
sample. -/
def GetAnalyticsSalaryRange (jobs : List Job) : SalaryRange :=
  if jobs.length = 0 then ⟨0, 0, 0, 0, 0⟩
  else
    let salaries := sortedSalaries jobs
    if salaries.length = 0 then ⟨0, 0, 0, 0, 0⟩
    else
      { min := goTrunc (salaries.getD 0 0)
        max := goTrunc (salaries.getD (salaries.length - 1) 0)
        median := percentile salaries 50
        p25 := percentile salaries 25
        p75 := percentile salaries 75 }

/-- `getTopCounts` (part_002 lines 313-340): sort the `(key, count)` pairs
of the frequency map descending by count and keep the first `limit`. The
`counts` argument is the sequence in which Go's `range` walks the map — an
order the runtime randomizes, hence an explicit parameter here. -/
def getTopCounts (counts : List (String × ℕ)) (limit : ℕ) : List SkillCount :=
  let pairs := sortBy (fun a b => decide (b.2 ≤ a.2)) counts
  (pairs.take limit).map (fun pair => { skill := pair.1, count := pair.2 })

/-- Bump the count of `k` in a first-seen-ordered association list
(helper for `skillCountsOf`). -/
def bumpCount (k : String) : List (String × ℕ) → List (String × ℕ)
  | [] => [(k, 1)]
  | (k', c) :: t => if k' = k then (k', c + 1) :: t else (k', c) :: bumpCount k t

/-- The skill-frequency map built by `GetAnalytics` (part_002 lines
241-244), as an association list in first-insertion order. Any permutation
of it is a possible `range` sequence over the Go map. -/
def skillCountsOf (jobs : List Job) : List (String × ℕ) :=
  jobs.foldl (fun acc job => job.skills.foldl (fun a s => bumpCount s a) acc) []

/-- `RateLimiter` (part_005 lines 10-16); `interval` in nanoseconds, the
`lastTime` field is replaced by passing the elapsed time into `waitStep`. -/
structure RateLimiter where
  rate : ℕ
  interval : ℕ
  tokens : ℕ
deriving DecidableEq

/-- `NewRateLimiter` (part_005 lines 19-26): no validation of any kind —
the bucket starts full at `rate` tokens. -/
def NewRateLimiter (rate interval : ℕ) : RateLimiter :=
  { rate := rate, interval := interval, tokens := rate }

/-- The refill of `RateLimiter.Wait` (part_005 lines 37-41):
`elapsed / interval` is Go `Duration` division, i.e. integer division, and
the sum is clamped from above at `rate`. Callers must rule out
`interval = 0` (division by zero) themselves. -/
def refillTokens (tokens rate elapsed interval : ℕ) : ℕ :=
  let t := tokens + elapsed / interval * rate
  if rate < t then rate else t

/-- `RateLimiter.Wait` (part_005 lines 29-59) as one pure step.
`elapsed` is the wall-clock time since the previous acquisition and
`ctxCancelled` tells whether the supplied context is (or becomes) done
before the refill timer fires. The result is `none` on a division-by-zero
panic, otherwise `(new state, acquired?, nanoseconds slept)`: the
token-available path consumes a token and sleeps 0; the empty path either
observes cancellation (no token consumed) or sleeps `interval / rate` and
resets the bucket to `rate - 1`. -/
def waitStep (rl : RateLimiter) (elapsed : ℕ) (ctxCancelled : Bool) :
    Option (RateLimiter × Bool × ℕ) :=
  if rl.interval = 0 then none
  else
    let t := refillTokens rl.tokens rl.rate elapsed rl.interval
    if 0 < t then some ({ rl with tokens := t - 1 }, true, 0)
    else if rl.rate = 0 then none
    else if ctxCancelled then some ({ rl with tokens := t }, false, 0)
    else some ({ rl with tokens := rl.rate - 1 }, true, rl.interval / rl.rate)

/-- Modelled from the spec's refill formula
`tokens = min(capacity, tokens + floor(elapsed / interval * capacity))`,
read as exact arithmetic (for comparison against `refillTokens`). -/
def refillSpecFormula (tokens rate elapsed interval : ℕ) : ℕ :=
  min rate (tokens + elapsed * rate / interval)

/-- `ScraperManager.GetAllJobs` (base.go lines 86-96): concatenate the
records of the outcomes whose error is `nil`, in the order of the results
slice — which `ScrapeAll` (base.go lines 54-83) indexes by launch order. -/
def GetAllJobs (results : List ScrapingResult) : List Job :=
  results.foldl
    (fun allJobs result =>
      if result.error = none then allJobs ++ result.jobs else allJobs) []

/-! ## Supporting lemmas -/

/-- `GetAllJobs`'s fold, started from an arbitrary accumulator. -/
lemma getAllJobs_foldl (results : List ScrapingResult) (acc : List Job) :
    results.foldl
      (fun allJobs result =>
        if result.error = none then allJobs ++ result.jobs else allJobs) acc
      = acc ++ GetAllJobs results := by
  induction results generalizing acc with
  | nil => simp [GetAllJobs]
  | cons r t ih =>
    by_cases h : r.error = none
    · simp only [GetAllJobs, List.foldl_cons, if_pos h, List.nil_append]
      rw [ih, ih r.jobs, List.append_assoc]
    · simp only [GetAllJobs, List.foldl_cons, if_neg h]
      rw [ih, ih []]
      simp

lemma sortBy_cons (le : α → α → Bool) (y : α) (t : List α) :
    sortBy le (y :: t) = insertSorted le y (sortBy le t) := rfl

lemma mem_insertSorted {le : α → α → Bool} {x a : α} {l : List α} :
    a ∈ insertSorted le x l ↔ a = x ∨ a ∈ l := by
  induction l with
  | nil => simp [insertSorted]
  | cons y t ih =>
    by_cases h : le x y
    · simp [insertSorted, h]
    · simp only [insertSorted, if_neg h, List.mem_cons, ih]
      tauto

lemma mem_sortBy {le : α → α → Bool} {a : α} {l : List α} :
    a ∈ sortBy le l ↔ a ∈ l := by
  induction l with
  | nil => simp [sortBy]
  | cons y t ih =>
    rw [sortBy_cons, mem_insertSorted, ih, List.mem_cons]

/-! ## Claim theorems: rate limiter -/

/-- C4 (counterexample). The claim's refill formula
`min(capacity, tokens + floor(elapsed / interval * capacity))` disagrees
with the code: with capacity 5, interval 1s, an empty bucket and half an
interval elapsed, the code's `Duration` division refills 0 tokens while the
claimed formula refills 2. -/
theorem refill_formula_counterexample :
    refillTokens 0 5 500000000 1000000000 = 0 ∧
    refillSpecFormula 0 5 500000000 1000000000 = 2 ∧
    refillTokens 0 5 500000000 1000000000 ≠
      refillSpecFormula 0 5 500000000 1000000000 := by
  refine ⟨by decide, ?_, by decide⟩
  show min 5 (0 + 500000000 * 5 / 1000000000) = 2
  norm_num

/-- C4 (amended). At every acquisition the limiter refills to
`min(capacity, tokens + floor(elapsed / interval) * capacity)` — the floor
of the integer `Duration` division is taken before multiplying by the
capacity; the token count after any non-panicking acquisition never exceeds
the capacity; and on the empty-bucket path (no cancellation) the wait
before retrying is `interval / capacity` nanoseconds. -/
theorem waitStep_refill_clamp (rl : RateLimiter) (elapsed : ℕ) (c : Bool)
    (hi : rl.interval ≠ 0) :
    (refillTokens rl.tokens rl.rate elapsed rl.interval
        = min rl.rate (rl.tokens + elapsed / rl.interval * rl.rate)) ∧
    (∀ rl' ok slept, waitStep rl elapsed c = some (rl', ok, slept) →
        rl'.tokens ≤ rl.rate) ∧
    (refillTokens rl.tokens rl.rate elapsed rl.interval = 0 → rl.rate ≠ 0 →
        c = false →
        waitStep rl elapsed c =
          some ({ rl with tokens := rl.rate - 1 }, true, rl.interval / rl.rate)) := by
  refine ⟨?_, ?_, ?_⟩
  · simp only [refillTokens]
    split <;> omega
  · intro rl' ok slept h
    rw [waitStep, if_neg hi] at h
    set t := refillTokens rl.tokens rl.rate elapsed rl.interval with ht
    have htle : t ≤ rl.rate := by
      rw [ht]
      simp only [refillTokens]
      split <;> omega
    by_cases h1 : 0 < t
    · rw [if_pos h1] at h
      cases h
      show t - 1 ≤ rl.rate
      omega
    · rw [if_neg h1] at h
      by_cases h2 : rl.rate = 0
      · rw [if_pos h2] at h
        cases h
      · rw [if_neg h2] at h
        by_cases h3 : c
        · rw [if_pos h3] at h
          cases h
          exact htle
        · rw [if_neg h3] at h
          cases h
          show rl.rate - 1 ≤ rl.rate
          omega
  · intro h0 hr hc
    rw [waitStep, if_neg hi, h0, if_neg (by omega), if_neg hr, hc, if_neg (by simp)]

/-- C4 (witness for `waitStep_refill_clamp`). -/
theorem waitStep_refill_clamp_witness :
    refillTokens 3 5 25 10 = min 5 (3 + 25 / 10 * 5) :=
  (waitStep_refill_clamp ⟨5, 10, 3⟩ 25 false (by decide)).1

/-- C5. Constructing a rate limiter with rate 0 does not fail: the code has
no error path at all, and the resulting limiter's `Wait` always panics with
an integer division by zero (it never hands out a token and never reports
cancellation). The spec requires such a construction to fail with a
configuration error. -/
theorem newRateLimiter_zero_rate (interval elapsed : ℕ) (c : Bool) :
    NewRateLimiter 0 interval = ⟨0, interval, 0⟩ ∧
    waitStep (NewRateLimiter 0 interval) elapsed c = none := by
  refine ⟨rfl, ?_⟩
  by_cases hi : interval = 0
  · simp [waitStep, NewRateLimiter, hi]
  · have h0 : refillTokens 0 0 elapsed interval = 0 := by
      simp only [refillTokens]
      split <;> omega
    simp [waitStep, NewRateLimiter, hi, h0]

/-- C10. Whenever the lazily-computed refill leaves at least one token,
`Wait` consumes a token and returns success immediately — whatever the
cancellation state of the supplied context. Cancellation is only observed
on the empty-bucket path. -/
theorem waitStep_token_ignores_cancellation (rl : RateLimiter) (elapsed : ℕ)
    (c : Bool) (hi : rl.interval ≠ 0)
    (ht : 0 < refillTokens rl.tokens rl.rate elapsed rl.interval) :
    waitStep rl elapsed c =
      some ({ rl with
                tokens := refillTokens rl.tokens rl.rate elapsed rl.interval - 1 },
            true, 0) := by
  rw [waitStep, if_neg hi, if_pos ht]

/-- C10 (witness): a full bucket of 5 with an already-cancelled context
still hands out a token at once. -/
theorem waitStep_token_ignores_cancellation_witness :
    waitStep ⟨5, 1000000000, 5⟩ 0 true = some (⟨5, 1000000000, 4⟩, true, 0) := by
  have h := waitStep_token_ignores_cancellation ⟨5, 1000000000, 5⟩ 0 true
    (by decide) (by decide)
  simpa using h

/-! ## Claim theorems: merging agent outcomes -/

/-- C8. `GetAllJobs` returns exactly the concatenation, in launch order, of
the record lists of the outcomes carrying no error; an outcome carrying an
error contributes nothing but removes nothing from its siblings. -/
theorem getAllJobs_concat_successful (results : List ScrapingResult) :
    (GetAllJobs results =
      ((results.filter (fun r => r.error.isNone)).map ScrapingResult.jobs).flatten) ∧
    (∀ pre bad post, bad.error ≠ none →
      GetAllJobs (pre ++ bad :: post) = GetAllJobs (pre ++ post)) := by
  have key : ∀ rs : List ScrapingResult,
      GetAllJobs rs =
        ((rs.filter (fun r => r.error.isNone)).map ScrapingResult.jobs).flatten := by
    intro rs
    induction rs with
    | nil => rfl
    | cons r t ih =>
      rw [GetAllJobs, List.foldl_cons, getAllJobs_foldl]
      by_cases h : r.error = none
      · rw [if_pos h, List.filter_cons_of_pos (by simp [h]), List.map_cons,
          List.flatten_cons, List.nil_append, ih]
      · rw [if_neg h, List.filter_cons_of_neg (by simp [h]), List.nil_append, ih]
  refine ⟨key results, ?_⟩
  intro pre bad post hbad
  rw [key, key, List.filter_append, List.filter_append,
    List.filter_cons_of_neg (by simp [Option.isNone_iff_eq_none, hbad])]

/-- C8 (witness): with the middle of three agents failing, the merge keeps
the first and third agents' records. -/
theorem getAllJobs_concat_successful_witness :
    GetAllJobs [⟨[{ emptyJob with url := "u1" }], "a", none⟩,
                ⟨[], "b", some "network error"⟩,
                ⟨[{ emptyJob with url := "u2" }], "c", none⟩]
      = GetAllJobs [⟨[{ emptyJob with url := "u1" }], "a", none⟩,
                    ⟨[{ emptyJob with url := "u2" }], "c", none⟩] :=
  (getAllJobs_concat_successful []).2
    [⟨[{ emptyJob with url := "u1" }], "a", none⟩]
    ⟨[], "b", some "network error"⟩
    [⟨[{ emptyJob with url := "u2" }], "c", none⟩]
    (by simp)

/-! ## Claim theorems: analytics rankings -/

/-- C9. The top-count ranking depends on the order in which Go's `range`
walks the frequency map: the store holding exactly two jobs, one with skill
"a" and one with skill "b", yields the frequency map `{a: 1, b: 1}`
(first-insertion order `[("a",1),("b",1)]`); the two possible iteration
sequences of that map are permutations of each other, yet `getTopCounts`
ranks them differently. Since the runtime randomizes the iteration order,
repeated identical searches can return different analytics, and the
tie-break is not the first-insertion order. -/
theorem getTopCounts_order_dependent :
    skillCountsOf [{ emptyJob with url := "u1", skills := ["a"] },
                   { emptyJob with url := "u2", skills := ["b"] }]
        = [("a", 1), ("b", 1)] ∧
    ([("a", 1), ("b", 1)] : List (String × ℕ)).Perm [("b", 1), ("a", 1)] ∧
    getTopCounts [("a", 1), ("b", 1)] 10 = [⟨"a", 1⟩, ⟨"b", 1⟩] ∧
    getTopCounts [("b", 1), ("a", 1)] 10 = [⟨"b", 1⟩, ⟨"a", 1⟩] ∧
    getTopCounts [("a", 1), ("b", 1)] 10 ≠ getTopCounts [("b", 1), ("a", 1)] 10 := by
  refine ⟨by decide, by decide, by decide, by decide, by decide⟩

/-! ## Supporting lemmas: the store -/

/-- `Store`'s fold appends exactly the URL-deduplicated new jobs. -/
lemma store_foldl (batch : List Job) (acc : List Job) :
    batch.foldl
      (fun acc job => if job.url ∈ acc.map Job.url then acc else acc ++ [job]) acc
      = acc ++ dedupNew (acc.map Job.url) batch := by
  induction batch generalizing acc with
  | nil => simp [dedupNew]
  | cons j t ih =>
    by_cases h : j.url ∈ acc.map Job.url
    · rw [List.foldl_cons, if_pos h, ih, dedupNew, if_pos h]
    · rw [List.foldl_cons, if_neg h, ih, dedupNew, if_neg h, List.map_append,
        List.append_assoc]
      rfl

/-- The URLs kept by `dedupNew` avoid `seen` and repeat nothing. -/
lemma dedupNew_urls (batch : List Job) (seen : List String) :
    (∀ u ∈ (dedupNew seen batch).map Job.url, u ∉ seen) ∧
    ((dedupNew seen batch).map Job.url).Nodup := by
  induction batch generalizing seen with
  | nil => simp [dedupNew]
  | cons j t ih =>
    by_cases h : j.url ∈ seen
    · rw [dedupNew, if_pos h]
      exact ih seen
    · rw [dedupNew, if_neg h]
      obtain ⟨havoid, hnodup⟩ := ih (seen ++ [j.url])
      refine ⟨?_, ?_⟩
      · intro u hu
        rw [List.map_cons] at hu
        rcases List.mem_cons.mp hu with rfl | hu2
        · exact h
        · intro hseen
          exact havoid u hu2 (List.mem_append_left _ hseen)
      · refine List.nodup_cons.mpr ⟨?_, hnodup⟩
        intro hmem
        exact havoid j.url hmem (List.mem_append_right _ (List.mem_singleton.mpr rfl))

/-! ## Claim theorems: the store -/

/-- C1. `Store` always succeeds (`nil` error); it appends to the stored
list exactly the incoming jobs whose URL is new, keeping the first
occurrence per URL; stored records are a prefix of the result (never
mutated, first entry wins); URL uniqueness is preserved by every call, in
any batching (consecutive calls equal one concatenated call); and no
record with an already-stored URL is ever added. -/
theorem store_url_unique (stored batch : List Job) :
    ((Store stored batch).2 = none) ∧
    ((Store stored batch).1 = stored ++ dedupNew (stored.map Job.url) batch) ∧
    (stored <+: (Store stored batch).1) ∧
    ((stored.map Job.url).Nodup → ((Store stored batch).1.map Job.url).Nodup) ∧
    (∀ b2, Store (Store stored batch).1 b2 = Store stored (batch ++ b2)) ∧
    (∀ u, u ∈ stored.map Job.url →
      (Store stored batch).1.filter (fun j => j.url == u)
        = stored.filter (fun j => j.url == u)) := by
  have hchar : (Store stored batch).1 = stored ++ dedupNew (stored.map Job.url) batch :=
    store_foldl batch stored
  obtain ⟨havoid, hnodup⟩ := dedupNew_urls batch (stored.map Job.url)
  refine ⟨rfl, hchar, ?_, ?_, ?_, ?_⟩
  · rw [hchar]
    exact ⟨_, rfl⟩
  · intro hstored
    rw [hchar, List.map_append]
    exact List.Nodup.append hstored hnodup
      (fun u hu hu2 => havoid u hu2 hu)
  · intro b2
    simp [Store, List.foldl_append]
  · intro u hu
    rw [hchar, List.filter_append]
    have : (dedupNew (stored.map Job.url) batch).filter (fun j => j.url == u) = [] := by
      rw [List.filter_eq_nil_iff]
      intro j hj
      have : j.url ∉ stored.map Job.url :=
        havoid j.url (List.mem_map_of_mem Job.url hj)
      simp only [beq_iff_eq]
      intro hju
      exact this (hju ▸ hu)
    rw [this, List.append_nil]

/-- C1 (witness): storing a second record with an already-stored URL is a
no-op — URLs stay unique and the first-stored record is untouched. -/
theorem store_url_unique_witness :
    (((Store [{ emptyJob with url := "u", title := "first" }]
         [{ emptyJob with url := "u", title := "second" }]).1.map Job.url).Nodup) ∧
    ((Store [{ emptyJob with url := "u", title := "first" }]
         [{ emptyJob with url := "u", title := "second" }]).1.filter
           (fun j => j.url == "u")
       = [{ emptyJob with url := "u", title := "first" }].filter
           (fun j => j.url == "u")) :=
  ⟨(store_url_unique [{ emptyJob with url := "u", title := "first" }]
      [{ emptyJob with url := "u", title := "second" }]).2.2.2.1 (by decide),
   (store_url_unique [{ emptyJob with url := "u", title := "first" }]
      [{ emptyJob with url := "u", title := "second" }]).2.2.2.2.2 "u" (by decide)⟩

/-! ## Supporting lemmas: search membership -/

/-- Anything in a successful Go slice was in the sliced list. -/
lemma goSlice_subset {xs : List α} {lo hi : ℤ} {ys : List α}
    (h : goSlice xs lo hi = some ys) : ∀ a ∈ ys, a ∈ xs := by
  rw [goSlice] at h
  split at h
  · cases h
    intro a ha
    exact List.mem_of_mem_drop (List.mem_of_mem_take ha)
  · cases h

lemma mem_sortJobsByDate {j : Job} {jobs : List Job} :
    j ∈ sortJobsByDate jobs ↔ j ∈ jobs := by
  rw [sortJobsByDate]
  exact mem_sortBy

/-- Every job on a returned search page passed the filters. -/
lemma mem_search_page {jobs : List Job} {filters : SearchFilters}
    {page : List Job} {total : ℕ}
    (hs : Search jobs filters = some (page, total)) {j : Job} (hj : j ∈ page) :
    matchesFilters j filters = true := by
  simp only [Search] at hs
  obtain ⟨p, hp, hfp⟩ := Option.map_eq_some'.mp hs
  have hpage : p = page := (Prod.mk.injEq _ _ _ _).mp hfp |>.1
  have hmem : j ∈ sortJobsByDate (jobs.filter fun j => matchesFilters j filters) :=
    goSlice_subset hp j (hpage ▸ hj)
  exact (List.mem_filter.mp (mem_sortJobsByDate.mp hmem)).2

/-! ## Claim theorems: filter semantics -/

/-- C6. With a positive `minSalary` (resp. `maxSalary`), a job whose
`salaryMin` (resp. `salaryMax`) is absent (zero) or outside the bound fails
the filters and is excluded from every search page; missing salary data
never passes by default — in particular a job with `salaryMin` unset is
excluded under `minSalary = 50000`. -/
theorem salary_filter_excludes_missing (job : Job) (filters : SearchFilters) :
    (0 < filters.minSalary →
      (job.salaryMin = 0 ∨ job.salaryMin < filters.minSalary) →
      matchesFilters job filters = false) ∧
    (0 < filters.maxSalary →
      (job.salaryMax = 0 ∨ filters.maxSalary < job.salaryMax) →
      matchesFilters job filters = false) ∧
    (∀ jobs page total,
      0 < filters.minSalary →
      (job.salaryMin = 0 ∨ job.salaryMin < filters.minSalary) →
      Search jobs filters = some (page, total) → job ∉ page) ∧
    (matchesFilters { emptyJob with salaryMin := 0 }
      { emptyFilters with minSalary := 50000 } = false) := by
  have hmin : 0 < filters.minSalary →
      (job.salaryMin = 0 ∨ job.salaryMin < filters.minSalary) →
      matchesFilters job filters = false := by
    intro h1 h2
    have hsal : salaryFilterOk job filters = false := by
      rcases h2 with h2 | h2 <;> simp [salaryFilterOk, h1, h2]
    simp [matchesFilters, hsal]
  refine ⟨hmin, ?_, ?_, by decide⟩
  · intro h1 h2
    have hsal : salaryFilterOk job filters = false := by
      rcases h2 with h2 | h2 <;> simp [salaryFilterOk, h1, h2]
    simp [matchesFilters, hsal]
  · intro jobs page total h1 h2 hs hmem
    have := mem_search_page hs hmem
    rw [hmin h1 h2] at this
    cases this

/-- C6 (witness): the general exclusion applied to the spec's concrete
example, an unset `salaryMin` against `minSalary = 50000`. -/
theorem salary_filter_excludes_missing_witness :
    matchesFilters { emptyJob with salaryMin := 0 }
      { emptyFilters with minSalary := 50000 } = false :=
  (salary_filter_excludes_missing { emptyJob with salaryMin := 0 }
    { emptyFilters with minSalary := 50000 }).1 (by decide) (Or.inl rfl)

/-- C7. The skills filter passes exactly when the job's skills contain ALL
requested skills after lowercasing; with keywords present, the keywords
filter passes exactly when ANY single keyword occurs (lowercased) inside
title+description+skills; both clauses are necessary for a match. The
spec's concrete examples: skills `["Go","Docker"]` matches a record with
skills `{"Go","Docker"}` (even written `{"go","docker"}`) but not one with
only `{"Go"}`, while keywords `["Go","Java"]` matches either record. -/
theorem skills_and_keywords_filters (job : Job) (filters : SearchFilters) :
    (skillsFilterOk job filters = true ↔
      ∀ req ∈ filters.skills, lowerStr req ∈ job.skills.map lowerStr) ∧
    (filters.keywords ≠ [] →
      (keywordsFilterOk job filters = true ↔
        ∃ k ∈ filters.keywords, goContains (jobText job) (lowerStr k) = true)) ∧
    (matchesFilters job filters = true →
      skillsFilterOk job filters = true ∧ keywordsFilterOk job filters = true) ∧
    (matchesFilters { emptyJob with skills := ["Go", "Docker"] }
      { emptyFilters with skills := ["Go", "Docker"] } = true) ∧
    (matchesFilters { emptyJob with skills := ["go", "docker"] }
      { emptyFilters with skills := ["Go", "Docker"] } = true) ∧
    (matchesFilters { emptyJob with skills := ["Go"] }
      { emptyFilters with skills := ["Go", "Docker"] } = false) ∧
    (matchesFilters { emptyJob with skills := ["Go", "Docker"] }
      { emptyFilters with keywords := ["Go", "Java"] } = true) ∧
    (matchesFilters { emptyJob with skills := ["Go"] }
      { emptyFilters with keywords := ["Go", "Java"] } = true) := by
  refine ⟨?_, ?_, ?_, by decide, by decide, by decide, by decide, by decide⟩
  · simp [skillsFilterOk, List.all_eq_true]
  · intro h
    simp [keywordsFilterOk, List.isEmpty_iff, h, List.any_eq_true]
  · intro h
    simp only [matchesFilters, Bool.and_eq_true] at h
    exact ⟨h.2, h.1.1.1.1.1.1.1.2⟩

/-- C7 (witness): the keywords characterization applied to the record with
skills `{"Go"}` and keywords `["Go","Java"]`. -/
theorem skills_and_keywords_filters_witness :
    keywordsFilterOk { emptyJob with skills := ["Go"] }
        { emptyFilters with keywords := ["Go", "Java"] } = true ↔
      ∃ k ∈ ["Go", "Java"],
        goContains (jobText { emptyJob with skills := ["Go"] }) (lowerStr k) = true :=
  (skills_and_keywords_filters { emptyJob with skills := ["Go"] }
    { emptyFilters with keywords := ["Go", "Java"] }).2.1 (by decide)

/-! ## Supporting lemmas: pagination -/

lemma length_insertSorted (le : α → α → Bool) (x : α) (l : List α) :
    (insertSorted le x l).length = l.length + 1 := by
  induction l with
  | nil => rfl
  | cons y t ih =>
    by_cases h : le x y
    · simp [insertSorted, h]
    · simp [insertSorted, h, ih]

lemma length_sortBy (le : α → α → Bool) (l : List α) :
    (sortBy le l).length = l.length := by
  induction l with
  | nil => rfl
  | cons y t ih => rw [sortBy_cons, length_insertSorted, ih, List.length_cons]

/-- The pagination arithmetic of `Search`, for non-negative offset and
limit: the goSlice never panics and returns the `offset`-to-`limit` window
of the sorted list (the whole remainder when `limit = 0`). -/
lemma goSlice_paginate (L : List α) (o l : ℤ) (ho : 0 ≤ o) (hl : 0 ≤ l) :
    goSlice L
      (if (L.length : ℤ) < o then (L.length : ℤ) else o)
      (if (L.length : ℤ) < (if l = 0 then (L.length : ℤ) else o + l)
       then (L.length : ℤ)
       else (if l = 0 then (L.length : ℤ) else o + l))
    = some ((L.drop o.toNat).take (if l = 0 then L.length else l.toNat)) := by
  by_cases h0 : l = 0
  · rw [if_pos h0, if_pos h0, if_neg (lt_irrefl _)]
    by_cases h2 : (L.length : ℤ) < o
    · rw [if_pos h2, goSlice,
        if_pos ⟨by omega, le_refl _, by omega⟩]
      have ha : ((L.length : ℤ)).toNat = L.length := by omega
      have hb : ((L.length : ℤ) - (L.length : ℤ)).toNat = 0 := by omega
      rw [ha, hb, List.drop_length, List.drop_eq_nil_of_le (by omega : L.length ≤ o.toNat)]
      simp
    · rw [if_neg h2, goSlice, if_pos ⟨ho, by omega, by omega⟩]
      have ha : (((L.length : ℤ)) - o).toNat = L.length - o.toNat := by omega
      rw [ha, List.take_of_length_le (by rw [List.length_drop]),
        List.take_of_length_le (by rw [List.length_drop]; omega)]
  · rw [if_neg h0, if_neg h0]
    by_cases h2 : (L.length : ℤ) < o + l
    · rw [if_pos h2]
      by_cases h3 : (L.length : ℤ) < o
      · rw [if_pos h3, goSlice, if_pos ⟨by omega, le_refl _, by omega⟩]
        have ha : ((L.length : ℤ)).toNat = L.length := by omega
        have hb : ((L.length : ℤ) - (L.length : ℤ)).toNat = 0 := by omega
        rw [ha, hb, List.drop_length,
          List.drop_eq_nil_of_le (by omega : L.length ≤ o.toNat)]
        simp
      · rw [if_neg h3, goSlice, if_pos ⟨ho, by omega, by omega⟩]
        have ha : (((L.length : ℤ)) - o).toNat = L.length - o.toNat := by omega
        rw [ha, List.take_of_length_le (by rw [List.length_drop]),
          List.take_of_length_le (by rw [List.length_drop]; omega)]
    · rw [if_neg h2]
      have h3 : ¬ (L.length : ℤ) < o := by omega
      rw [if_neg h3, goSlice, if_pos ⟨ho, by omega, by omega⟩]
      have ha : (o + l - o).toNat = l.toNat := by omega
      rw [ha]

/-! ## Claim theorems: pagination -/

/-- C3 (counterexample). The claim that `Search` clamps the offset into
`[0, total]` and never fails for any offset/limit is false: the code only
clamps from above, and a negative offset reaches the Go slice expression
out of range, a runtime panic — here, `offset = -1` against a one-job
store. -/
theorem search_negative_offset_panics :
    Search [emptyJob] { emptyFilters with offset := -1 } = none := by decide

/-- C3 (amended). For non-negative offset and limit, `Search` never fails:
pagination is applied after filtering and sorting, the offset is clamped
from above by the total (an offset at or beyond the total yields an empty
page while the reported total — the pre-pagination filtered count — is
unchanged), and limit 0 means unlimited from the offset. -/
theorem search_pagination (jobs : List Job) (filters : SearchFilters)
    (ho : 0 ≤ filters.offset) (hl : 0 ≤ filters.limit) :
    (Search jobs filters =
      some (((sortJobsByDate (jobs.filter fun j => matchesFilters j filters)).drop
                filters.offset.toNat).take
              (if filters.limit = 0
               then (sortJobsByDate (jobs.filter fun j => matchesFilters j filters)).length
               else filters.limit.toNat),
            (sortJobsByDate (jobs.filter fun j => matchesFilters j filters)).length)) ∧
    (∀ page total, Search jobs filters = some (page, total) →
      total = (jobs.filter fun j => matchesFilters j filters).length ∧
      ((total : ℤ) ≤ filters.offset → page = [])) := by
  have main : Search jobs filters =
      some (((sortJobsByDate (jobs.filter fun j => matchesFilters j filters)).drop
                filters.offset.toNat).take
              (if filters.limit = 0
               then (sortJobsByDate (jobs.filter fun j => matchesFilters j filters)).length
               else filters.limit.toNat),
            (sortJobsByDate (jobs.filter fun j => matchesFilters j filters)).length) := by
    simp only [Search]
    rw [goSlice_paginate _ filters.offset filters.limit ho hl]
    rfl
  refine ⟨main, ?_⟩
  intro page total hs
  rw [main] at hs
  obtain ⟨hpage, htotal⟩ := Prod.mk.injEq .. ▸ (Option.some.injEq .. ▸ hs)
  constructor
  · rw [← htotal, sortJobsByDate, length_sortBy]
  · intro hofs
    rw [← hpage]
    have hdrop :
        (sortJobsByDate (jobs.filter fun j => matchesFilters j filters)).drop
          filters.offset.toNat = [] := by
      refine List.drop_eq_nil_of_le ?_
      rw [← htotal] at hofs
      omega
    rw [hdrop, List.take_nil]

/-- C3 (witness): the amended pagination law at offset 0, limit 0 on the
empty store. -/
theorem search_pagination_witness :
    Search [] emptyFilters =
      some (((sortJobsByDate (List.filter (fun j => matchesFilters j emptyFilters) [])).drop
                (Int.toNat emptyFilters.offset)).take
              (if emptyFilters.limit = 0
               then (sortJobsByDate (List.filter (fun j => matchesFilters j emptyFilters) [])).length
               else Int.toNat emptyFilters.limit),
            (sortJobsByDate (List.filter (fun j => matchesFilters j emptyFilters) [])).length) :=
  (search_pagination [] emptyFilters (by decide) (by decide)).1

/-! ## Claim theorems: percentiles -/

/-- C2. `percentile` computes linear interpolation at index
`p/100*(n-1)` between the floor and ceiling ranks of the ascending-sorted
sample; a one-element sample returns its single value; a job set with an
empty representative-salary sample yields the zero-valued salary range; and
on the spec's concrete sample `[60000, 80000, 100000, 120000]` the median
is `90000` and the 25th percentile is `75000` — also when reached through
the salary statistics of `GetAnalytics` on four jobs carrying those
representative salaries. -/
theorem percentile_linear_interpolation (d : List ℚ) (p : ℚ) (jobs : List Job)
    (hp0 : 0 ≤ p) (hp1 : p ≤ 100) :
    (2 ≤ d.length →
      percentile d p =
        d.getD (⌊p / 100 * ((d.length : ℚ) - 1)⌋).toNat 0 *
            (1 - Int.fract (p / 100 * ((d.length : ℚ) - 1))) +
          d.getD (⌈p / 100 * ((d.length : ℚ) - 1)⌉).toNat 0 *
            Int.fract (p / 100 * ((d.length : ℚ) - 1))) ∧
    (d.length = 1 → percentile d p = d.getD 0 0) ∧
    (jobs.filterMap representativeSalary = [] →
      GetAnalyticsSalaryRange jobs = ⟨0, 0, 0, 0, 0⟩) ∧
    (percentile [60000, 80000, 100000, 120000] 50 = 90000) ∧
    (percentile [60000, 80000, 100000, 120000] 25 = 75000) ∧
    (GetAnalyticsSalaryRange
        [{ emptyJob with url := "u1", salaryMin := 60000, salaryMax := 60000 },
         { emptyJob with url := "u2", salaryMin := 80000, salaryMax := 80000 },
         { emptyJob with url := "u3", salaryMin := 100000, salaryMax := 100000 },
         { emptyJob with url := "u4", salaryMin := 120000, salaryMax := 120000 }]
      = ⟨60000, 120000, 90000, 75000, 105000⟩) := by
  have hc50 : percentile [60000, 80000, 100000, 120000] 50 = 90000 := by
    have hi : ((50 : ℚ) / 100 *
        ((([60000, 80000, 100000, 120000] : List ℚ).length : ℚ) - 1)) = 3/2 := by
      norm_num
    have hg : goTrunc (3/2 : ℚ) = 1 := by
      rw [goTrunc, if_neg (by norm_num)]
      norm_num [Int.floor_eq_iff]
    simp only [percentile]
    rw [if_neg (by norm_num), if_neg (by norm_num), hi, hg, if_neg (by norm_num)]
    rw [show ((1:ℤ)).toNat = 1 from rfl, show ((1:ℤ) + 1).toNat = 2 from rfl]
    rw [show ([60000, 80000, 100000, 120000] : List ℚ).getD 1 0 = 80000 from rfl,
      show ([60000, 80000, 100000, 120000] : List ℚ).getD 2 0 = 100000 from rfl]
    norm_num
  have hc25 : percentile [60000, 80000, 100000, 120000] 25 = 75000 := by
    have hi : ((25 : ℚ) / 100 *
        ((([60000, 80000, 100000, 120000] : List ℚ).length : ℚ) - 1)) = 3/4 := by
      norm_num
    have hg : goTrunc (3/4 : ℚ) = 0 := by
      rw [goTrunc, if_neg (by norm_num)]
      norm_num [Int.floor_eq_iff]
    simp only [percentile]
    rw [if_neg (by norm_num), if_neg (by norm_num), hi, hg, if_neg (by norm_num)]
    rw [show ((0:ℤ)).toNat = 0 from rfl, show ((0:ℤ) + 1).toNat = 1 from rfl]
    rw [show ([60000, 80000, 100000, 120000] : List ℚ).getD 0 0 = 60000 from rfl,
      show ([60000, 80000, 100000, 120000] : List ℚ).getD 1 0 = 80000 from rfl]
    norm_num
  have hc75 : percentile [60000, 80000, 100000, 120000] 75 = 105000 := by
    have hi : ((75 : ℚ) / 100 *
        ((([60000, 80000, 100000, 120000] : List ℚ).length : ℚ) - 1)) = 9/4 := by
      norm_num
    have hg : goTrunc (9/4 : ℚ) = 2 := by
      rw [goTrunc, if_neg (by norm_num)]
      norm_num [Int.floor_eq_iff]
    simp only [percentile]
    rw [if_neg (by norm_num), if_neg (by norm_num), hi, hg, if_neg (by norm_num)]
    rw [show ((2:ℤ)).toNat = 2 from rfl, show ((2:ℤ) + 1).toNat = 3 from rfl]
    rw [show ([60000, 80000, 100000, 120000] : List ℚ).getD 2 0 = 100000 from rfl,
      show ([60000, 80000, 100000, 120000] : List ℚ).getD 3 0 = 120000 from rfl]
    norm_num
  refine ⟨?_, ?_, ?_, hc50, hc25, ?_⟩
  · intro hn
    have hn2 : (2 : ℚ) ≤ (d.length : ℚ) := by exact_mod_cast hn
    set i : ℚ := p / 100 * ((d.length : ℚ) - 1) with hidef
    have hi0 : 0 ≤ i := by
      apply mul_nonneg (div_nonneg hp0 (by norm_num))
      linarith
    have hi1 : i ≤ (d.length : ℚ) - 1 := by
      have hp100 : p / 100 ≤ 1 := (div_le_one (by norm_num)).mpr hp1
      calc i ≤ 1 * ((d.length : ℚ) - 1) :=
              mul_le_mul_of_nonneg_right hp100 (by linarith)
        _ = (d.length : ℚ) - 1 := one_mul _
    have hfloor_le : ⌊i⌋ ≤ (d.length : ℤ) - 1 := by
      have hcast : ((d.length : ℚ) - 1) = (((d.length : ℤ) - 1 : ℤ) : ℚ) := by
        push_cast
        ring
      calc ⌊i⌋ ≤ ⌊(d.length : ℚ) - 1⌋ := Int.floor_le_floor hi1
        _ = (d.length : ℤ) - 1 := by rw [hcast, Int.floor_intCast]
    simp only [percentile]
    rw [if_neg (by omega), if_neg (by omega), goTrunc, if_neg (not_lt.mpr hi0)]
    by_cases hcase : (d.length : ℤ) ≤ ⌊i⌋ + 1
    · rw [if_pos hcase]
      have hfl : ⌊i⌋ = (d.length : ℤ) - 1 := by omega
      have hieq : i = (d.length : ℚ) - 1 := by
        refine le_antisymm hi1 ?_
        calc (d.length : ℚ) - 1 = ((⌊i⌋ : ℤ) : ℚ) := by
              rw [hfl]
              push_cast
              ring
          _ ≤ i := Int.floor_le i
      have hcast : i = (((d.length : ℤ) - 1 : ℤ) : ℚ) := by
        rw [hieq]
        push_cast
        ring
      have hfr : Int.fract i = 0 := by rw [hcast, Int.fract_intCast]
      have hceil : ⌈i⌉ = (d.length : ℤ) - 1 := by rw [hcast, Int.ceil_intCast]
      rw [hfr, hfl, hceil]
      have htoNat : ((d.length : ℤ) - 1).toNat = d.length - 1 := by omega
      rw [htoNat]
      ring
    · rw [if_neg hcase]
      have hw : i - (⌊i⌋ : ℚ) = Int.fract i := Int.self_sub_floor i
      rw [hw]
      by_cases hfr : Int.fract i = 0
      · have hieq : i = ((⌊i⌋ : ℤ) : ℚ) := by
          have h := Int.self_sub_floor i
          rw [hfr] at h
          linarith
        have hceil : ⌈i⌉ = ⌊i⌋ := by rw [hieq, Int.ceil_intCast, Int.floor_intCast]
        rw [hfr, hceil]
        ring
      · have hne : i ≠ ((⌈i⌉ : ℤ) : ℚ) := by
          intro h
          exact hfr (by rw [h, Int.fract_intCast])
        have hlt : i < ((⌈i⌉ : ℤ) : ℚ) := lt_of_le_of_ne (Int.le_ceil i) hne
        have h2 : ⌊i⌋ < ⌈i⌉ := Int.floor_lt.mpr hlt
        have hceil : ⌈i⌉ = ⌊i⌋ + 1 := by
          have h1 := Int.ceil_le_floor_add_one i
          omega
        rw [hceil]
  · intro h1
    simp only [percentile]
    rw [if_neg (by omega), if_pos h1]
  · intro hempty
    rw [GetAnalyticsSalaryRange]
    by_cases hj : jobs.length = 0
    · rw [if_pos hj]
    · rw [if_neg hj]
      have hsal : sortedSalaries jobs = [] := by
        rw [sortedSalaries, hempty]
        rfl
      rw [hsal]
      simp
  · have h1 : representativeSalary
        { emptyJob with url := "u1", salaryMin := 60000, salaryMax := 60000 }
        = some 60000 := by
      rw [representativeSalary, if_pos (by norm_num)]
      norm_num
    have h2 : representativeSalary
        { emptyJob with url := "u2", salaryMin := 80000, salaryMax := 80000 }
        = some 80000 := by
      rw [representativeSalary, if_pos (by norm_num)]
      norm_num
    have h3 : representativeSalary
        { emptyJob with url := "u3", salaryMin := 100000, salaryMax := 100000 }
        = some 100000 := by
      rw [representativeSalary, if_pos (by norm_num)]
      norm_num
    have h4 : representativeSalary
        { emptyJob with url := "u4", salaryMin := 120000, salaryMax := 120000 }
        = some 120000 := by
      rw [representativeSalary, if_pos (by norm_num)]
      norm_num
    have hs : sortedSalaries
        [{ emptyJob with url := "u1", salaryMin := 60000, salaryMax := 60000 },
         { emptyJob with url := "u2", salaryMin := 80000, salaryMax := 80000 },
         { emptyJob with url := "u3", salaryMin := 100000, salaryMax := 100000 },
         { emptyJob with url := "u4", salaryMin := 120000, salaryMax := 120000 }]
        = [60000, 80000, 100000, 120000] := by
      rw [sortedSalaries]
      rw [List.filterMap_cons, h1, List.filterMap_cons, h2, List.filterMap_cons, h3,
        List.filterMap_cons, h4, List.filterMap_nil]
      norm_num [sortBy, insertSorted]
    have hmin : goTrunc (([60000, 80000, 100000, 120000] : List ℚ).getD 0 0)
        = 60000 := by
      rw [show ([60000, 80000, 100000, 120000] : List ℚ).getD 0 0 = 60000 from rfl,
        goTrunc, if_neg (by norm_num)]
      norm_num [Int.floor_eq_iff]
    have hmax : goTrunc (([60000, 80000, 100000, 120000] : List ℚ).getD
        (([60000, 80000, 100000, 120000] : List ℚ).length - 1) 0) = 120000 := by
      rw [show (([60000, 80000, 100000, 120000] : List ℚ).length - 1) = 3 from rfl,
        show ([60000, 80000, 100000, 120000] : List ℚ).getD 3 0 = 120000 from rfl,
        goTrunc, if_neg (by norm_num)]
      norm_num [Int.floor_eq_iff]
    simp only [GetAnalyticsSalaryRange]
    rw [if_neg (by simp), hs, if_neg (by simp), hmin, hmax, hc50, hc25, hc75]

/-- C2 (witness): the interpolation law instantiated on the spec's
four-element sample at `p = 50`. -/
theorem percentile_linear_interpolation_witness :
    percentile [60000, 80000, 100000, 120000] 50 =
      ([60000, 80000, 100000, 120000] : List ℚ).getD
          (⌊(50 : ℚ) / 100 * ((([60000, 80000, 100000, 120000] : List ℚ).length : ℚ) - 1)⌋).toNat 0 *
          (1 - Int.fract ((50 : ℚ) / 100 *
            ((([60000, 80000, 100000, 120000] : List ℚ).length : ℚ) - 1))) +
        ([60000, 80000, 100000, 120000] : List ℚ).getD
          (⌈(50 : ℚ) / 100 * ((([60000, 80000, 100000, 120000] : List ℚ).length : ℚ) - 1)⌉).toNat 0 *
          Int.fract ((50 : ℚ) / 100 *
            ((([60000, 80000, 100000, 120000] : List ℚ).length : ℚ) - 1)) :=
  (percentile_linear_interpolation [60000, 80000, 100000, 120000] 50 []
    (by norm_num) (by norm_num)).1 (by norm_num)
